import Mathlib

/-!
Shallow embedding of `src/leann_poc/leann_bridge.py` (class `LEANNBridge`).

The bridge's interaction with the filesystem and with the external LEANN
library is modelled as explicit environment data passed to the functions:
`Path.exists()` becomes membership in a list of existing paths, the JSON
content of a file becomes an association-list lookup, and the outcome of a
call into the LEANN library (`LeannSearcher(...)`, `searcher.search(...)`,
`re.compile(...)`) becomes an `Except String _` value recording either the
returned data or the message of the raised exception.  Python `float`
scores are modelled as `Rat`: the bridge never computes with scores, it
only copies them or sets the constant `1.0`.
-/

namespace LeannBridge

/-- A `pathlib.Path`: an absolute-or-relative flag plus the list of
name components (`Path.parts`, without the leading `/` part). -/
structure PPath where
  absolute : Bool
  comps : List String
deriving DecidableEq, Repr

/-- Python `/` path join: an absolute right operand discards the left
operand (`Path('/a') / '/x' == Path('/x')`). -/
def pjoin (a b : PPath) : PPath :=
  if b.absolute then b else ⟨a.absolute, a.comps ++ b.comps⟩

/-- `Path.parent`: drop the last component. -/
def parentPath (p : PPath) : PPath := ⟨p.absolute, p.comps.dropLast⟩

/-- `Path(str(p) + ".meta.json")`: string concatenation appends to the
last component of the path. -/
def metaSuffixPath (p : PPath) : PPath :=
  match p.comps.getLast? with
  | none => ⟨p.absolute, [".meta.json"]⟩
  | some last => ⟨p.absolute, p.comps.dropLast ++ [last ++ ".meta.json"]⟩

/-- Render a path back to a string (used in error messages). -/
def renderPath (p : PPath) : String :=
  (if p.absolute then "/" else "") ++ String.intercalate "/" p.comps

/-- `Path.exists()` over an explicit list of existing paths. -/
def pexists (existing : List PPath) (p : PPath) : Bool :=
  existing.any (fun q => q = p)

/-- Generic association-list lookup (models opening and JSON-parsing a
file whose content the environment records). -/
def alookup {α β : Type} [DecidableEq α] : List (α × β) → α → Option β
  | [], _ => none
  | (k, v) :: rest, a => if k = a then some v else alookup rest a

/-- Whether `pat` starts the character list `hay`. -/
def leadsWith : List Char → List Char → Bool
  | [], _ => true
  | _ :: _, [] => false
  | a :: as, b :: bs => a = b && leadsWith as bs

/-- Whether `pat` occurs contiguously inside `hay`. -/
def containsSub (hay pat : List Char) : Bool :=
  leadsWith pat hay ||
    match hay with
    | [] => false
    | _ :: t => containsSub t pat

/-- Python `"needle" in haystack` substring test. -/
def strContains (hay pat : String) : Bool :=
  containsSub hay.toList pat.toList

/-- Python `not content.strip()`: the string strips down to nothing
exactly when every character is whitespace (an empty string included). -/
def isBlank (s : String) : Bool :=
  s.toList.all (fun c => c.isWhitespace)

/-- Passage metadata: a JSON object, modelled as a flat key/value list. -/
abbrev MetaRecord := List (String × String)

/-- One entry of the `passage_sources` list in the index metadata file:
`{"type": ..., "path": ...}`, either key possibly absent (`path` absent is
modelled as `none`). -/
structure MetaSource where
  stype : String
  path : Option PPath
deriving DecidableEq, Repr

/-- The parsed `*.meta.json` descriptor.  An absent `passage_sources` key
behaves exactly like an empty list in `_manual_grep`, so it is modelled
as `[]`. -/
structure MetaFile where
  is_pruned : Bool
  is_compact : Bool
  passage_sources : List MetaSource
deriving DecidableEq, Repr

/-- A parsed line of the raw-passage log: `{"text": ..., "content": ...,
"metadata": ...}` with the text fields possibly absent. -/
structure PassageRecord where
  text : Option String
  content : Option String
  metadata : MetaRecord
deriving DecidableEq, Repr

/-- One physical line of the raw-passage log: either it parses as JSON
(`ok`) or `json.loads` raises and the line is skipped (`bad`). -/
inductive LogLine where
  | ok (r : PassageRecord)
  | bad
deriving DecidableEq, Repr

/-- Python `record.get("text") or record.get("content") or ""`:
`or` treats both `None` and the empty string as falsy. -/
def pyOrStr (a : Option String) (b : String) : String :=
  match a with
  | none => b
  | some s => if s = "" then b else s

/-- The content string `_manual_grep` tests the pattern against. -/
def recContent (r : PassageRecord) : String :=
  pyOrStr r.text (pyOrStr r.content "")

/-- A formatted search result `{content, metadata, score}`. -/
structure SearchHit where
  content : String
  metadata : MetaRecord
  score : Rat
deriving DecidableEq, Repr

/-- One element of the list `search` / `_manual_grep` return: either a
result dict or an in-band `{"error": msg}` dict. -/
inductive Entry where
  | hit (h : SearchHit)
  | error (msg : String)
deriving DecidableEq, Repr

/-- The filesystem/library environment `_manual_grep` runs against.
`regex` is the outcome of `re.compile(query, re.IGNORECASE)` for the
query of the current call: a predicate on strings (`pattern.search`), or
the message of the `re.error` it raised. -/
structure GrepEnv where
  indexPath : PPath
  existing : List PPath
  metaFiles : List (PPath × MetaFile)
  logFiles : List (PPath × List LogLine)
  regex : Except String (String → Bool)

/-- The passage-log path resolution of `_manual_grep` (lines 256-269):
try the path relative to the metadata file's directory, then
`Path(passage_path)` twice (once unconditionally, once guarded on the
path not being absolute — both produce the same object), and fail if the
final candidate does not exist. -/
def resolvePassagePath (ex : PPath → Bool) (metaDir p : PPath) : Option PPath :=
  let f1 := pjoin metaDir p
  let f2 := if ex f1 then f1 else p
  let f3 := if !(ex f2) && !p.absolute then p else f2
  if ex f3 then some f3 else none

/-- The resolution order as the specification words it: metadata-dir
relative first, then the path itself (which `Path(passage_path)`
interprets as absolute when it is absolute and against the working
context otherwise, hence the candidate appears for both steps), first
existing candidate wins. -/
def resolveSpecOrder (ex : PPath → Bool) (metaDir p : PPath) : Option PPath :=
  List.find? ex [pjoin metaDir p, p, p]

/-- The first `passage_sources` entry with `type == "jsonl"` ends the
loop; its (possibly absent) `path` is the result.  Falsy `passage_path`
(absent key, or no jsonl entry at all) later becomes an error. -/
def firstJsonlPath : List MetaSource → Option PPath
  | [] => none
  | s :: rest => if s.stype = "jsonl" then s.path else firstJsonlPath rest

/-- The scan loop of `_manual_grep` (lines 277-296): walk the log lines,
skip unparsable lines, test the pattern on the content field, append a
score-1.0 hit on a match and stop as soon as `len(results) >= top_k`. -/
def grepScan (m : String → Bool) (topK : Int) (acc : List SearchHit) :
    List LogLine → List SearchHit
  | [] => acc
  | line :: rest =>
    match line with
    | .bad => grepScan m topK acc rest
    | .ok r =>
      let c := recContent r
      if m c then
        let acc' := acc ++ [⟨c, r.metadata, 1⟩]
        if topK ≤ (acc'.length : Int) then acc' else grepScan m topK acc' rest
      else grepScan m topK acc rest

/-- `LEANNBridge._manual_grep` (lines 229-304).  It catches every
exception internally, so it is a total function into an entry list. -/
def manual_grep (env : GrepEnv) (topK : Int) : List Entry :=
  let ex := pexists env.existing
  let mA := metaSuffixPath env.indexPath
  let mB := pjoin env.indexPath ⟨false, ["meta.json"]⟩
  let mC := pjoin env.indexPath ⟨false, ["code_index.meta.json"]⟩
  let metaPath := if ex mA then mA else if ex mB then mB else mC
  if !(ex metaPath) then
    [.error ("Grep failed: Metadata not found at " ++ renderPath env.indexPath ++ "[.meta.json]")]
  else
    match alookup env.metaFiles metaPath with
    | none => [.error "Manual grep fallback failed: could not read metadata file"]
    | some meta =>
      match firstJsonlPath meta.passage_sources with
      | none => [.error "Grep failed: No jsonl passage source found in metadata"]
      | some ppath =>
        match resolvePassagePath ex (parentPath metaPath) ppath with
        | none =>
          [.error ("Grep failed: Passage file not found at " ++ renderPath ppath
            ++ " or " ++ renderPath ppath)]
        | some passFile =>
          match env.regex with
          | .error e => [.error ("Invalid regex pattern: " ++ e)]
          | .ok m =>
            match alookup env.logFiles passFile with
            | none => [.error "Manual grep fallback failed: could not open passage file"]
            | some lines =>
              let hits := grepScan m topK [] lines
              if hits.isEmpty then [] else hits.map Entry.hit

/-- One result object returned by `searcher.search(...)` in the LEANN
library (`result.text`, `result.metadata`, `result.score`). -/
structure RawResult where
  text : String
  metadata : MetaRecord
  score : Rat
deriving DecidableEq, Repr

/-- The environment of one `LEANNBridge.search` call: the outcome of the
`LeannSearcher` constructor, the `is_pruned` / `is_compact` flags of
`searcher.meta_data`, the outcome of the `searcher.search(...)` call
(`Except.error e` models the call raising with message `e`), and the
grep environment used when `_manual_grep` is invoked. -/
structure SearchEnv where
  searcherInit : Except String Unit
  is_pruned : Bool
  is_compact : Bool
  libSearch : Except String (List RawResult)
  grep : GrepEnv

/-- Query-time metadata filters; the bridge passes them through
unmodified, so their shape is irrelevant to the planner. -/
abbrev MetaFilters := Option (List (String × String))

/-- The escalation phrase line 205 / line 225 test the error text for. -/
def missingLogPhrase : String := "No .jsonl passages file found"

/-- The error entry text of line 210 (recompute capability failed). -/
def recomputeMsg (e : String) : String :=
  "Search failed because the index is compact/pruned and the recompute server could not start. Please RE-INDEX your codebase in Settings for better performance and reliability. Error: " ++ e

/-- The formatting loop of `search` (lines 214-220). -/
def formatResult (r : RawResult) : Entry :=
  .hit ⟨r.text, r.metadata, r.score⟩

/-- The body of the outer `try` of `LEANNBridge.search`
(lines 182-222): constructor, recompute decision, the inner
`try/except`, and the `raise search_err` of line 211 (an uncaught
exception is an `Except.error`). -/
def searchBody (env : SearchEnv) (topK : Int) (useGrep : Bool) :
    Except String (List Entry) :=
  match env.searcherInit with
  | .error e => .error e
  | .ok _ =>
    let recomputeRequired := env.is_pruned || env.is_compact
    match env.libSearch with
    | .ok results => .ok (results.map formatResult)
    | .error e =>
      if useGrep && strContains e missingLogPhrase then
        .ok (manual_grep env.grep topK)
      else if recomputeRequired then
        .ok [.error (recomputeMsg e)]
      else
        .error e

/-- `LEANNBridge.search` (lines 162-227) with its outer `except` handler
(lines 224-227).  The result is `Except`-valued so that an exception
escaping the method would be visible as `Except.error`; the query and
the metadata filters only flow into the environment outcomes, which are
explicit here, so they are parameters of the theorems rather than of
this function. -/
def search (env : SearchEnv) (topK : Int) (useGrep : Bool) :
    Except String (List Entry) :=
  match searchBody env topK useGrep with
  | .ok l => .ok l
  | .error e =>
    if useGrep && strContains e missingLogPhrase then
      .ok (manual_grep env.grep topK)
    else
      .ok [.error ("Search failed: " ++ e)]

/-! ### Ingestion (`LEANNBridge.index_codebase`, lines 61-159) -/

/-- A regular file yielded by `root.rglob('*')` (directory entries are
dropped by the `is_file()` check on line 104 and are not modelled).
`relParts` are the path components below the root, ending in the file
name; `suffix` models `Path.suffix`; `readErr` is the message of the
exception raised inside the per-file `try` block (reading or `stat`),
`none` when the block succeeds. -/
structure IngestFile where
  relParts : List String
  suffix : String
  content : String
  readErr : Option String
deriving DecidableEq, Repr

/-- A unit of text handed to `builder.add_text` with its provenance. -/
structure Passage where
  relParts : List String
  suffix : String
  content : String
deriving DecidableEq, Repr

/-- The environment of one `index_codebase` call.  `rootParts` are the
components of `root_path` as given (so they include every ancestor
directory written in the argument); `files` are the regular files
`rglob` yields when the root is a directory — `rglob('*')` on an
existing non-directory yields nothing; `buildErr` is the message of the
exception `builder.build_index` raises, `none` on success. -/
structure IngestEnv where
  rootParts : List String
  rootExists : Bool
  rootIsDir : Bool
  files : List IngestFile
  buildErr : Option String

/-- Default `extensions` (line 79). -/
def defaultExtensions : List String :=
  [".swift", ".py", ".js", ".ts", ".md", ".json", ".csv", ".yaml", ".yml", ".txt"]

/-- Default `exclude_dirs` (line 81). -/
def defaultExcludeDirs : List String :=
  ["build", ".build", "node_modules", "venv", ".git"]

/-- Line 108: `any(exc in file_path.parts for exc in exclude_dirs)`,
where `file_path.parts` is the root path's components followed by the
components below the root. -/
def excludedFile (rootParts excludeDirs : List String) (f : IngestFile) : Bool :=
  excludeDirs.any (fun e => (rootParts ++ f.relParts).any (fun c => c = e))

/-- Line 112: `file_path.suffix not in extensions` (negated). -/
def extMatches (extensions : List String) (f : IngestFile) : Bool :=
  extensions.any (fun x => x = f.suffix)

/-- The warning string appended on a per-file failure (line 144). -/
def warnMsg (rootParts : List String) (f : IngestFile) : String :=
  "Error indexing " ++ String.intercalate "/" (rootParts ++ f.relParts) ++ ": "
    ++ f.readErr.getD ""

/-- The passage `builder.add_text` receives for a surviving file. -/
def toPassage (f : IngestFile) : Passage :=
  ⟨f.relParts, f.suffix, f.content⟩

/-- The walk loop of `index_codebase` (lines 102-144): skip excluded
paths, skip non-matching extensions, collect a warning when the per-file
`try` block raises, skip whitespace-only content, otherwise add the
passage.  Returns the added passages and the collected warnings, in
walk order. -/
def processFiles (rootParts extensions excludeDirs : List String) :
    List IngestFile → (List Passage × List String)
  | [] => ([], [])
  | f :: rest =>
    let (ps, es) := processFiles rootParts extensions excludeDirs rest
    if excludedFile rootParts excludeDirs f then (ps, es)
    else if !(extMatches extensions f) then (ps, es)
    else
      match f.readErr with
      | some _ => (ps, warnMsg rootParts f :: es)
      | none => if isBlank f.content then (ps, es) else (toPassage f :: ps, es)

/-- The dictionary `index_codebase` returns: either `{"error": msg}` or
the success record.  The passages handed to the builder are carried in
the success case so that theorems can speak about what was indexed. -/
inductive IndexResult where
  | error (msg : String)
  | success (indexedFiles indexedChunks : Nat) (errors : List String) (passages : List Passage)
deriving DecidableEq, Repr

/-- The files the `rglob` walk of `index_codebase` visits. -/
def walkedFiles (env : IngestEnv) : List IngestFile :=
  if env.rootIsDir then env.files else []

/-- `LEANNBridge.index_codebase` (lines 61-159): apply the default
filters, fail when the root does not exist (line 84 checks existence
only), walk the tree, then build the index. -/
def index_codebase (env : IngestEnv)
    (extensions excludeDirs : Option (List String)) : IndexResult :=
  let exts := extensions.getD defaultExtensions
  let excs := excludeDirs.getD defaultExcludeDirs
  if !env.rootExists then
    .error ("Path does not exist: " ++ String.intercalate "/" env.rootParts)
  else
    let (ps, errs) := processFiles env.rootParts exts excs (walkedFiles env)
    match env.buildErr with
    | some m => .error ("Failed to build index: " ++ m)
    | none => .success ps.length ps.length errs ps

/-! ### Specification-level characterizations and concrete environments -/

/-- A walked file survives every filter of the loop and is handed to
`builder.add_text`: not under an excluded component, matching extension,
readable, and with non-whitespace content. -/
def fileKept (rootParts extensions excludeDirs : List String) (f : IngestFile) : Bool :=
  !excludedFile rootParts excludeDirs f && extMatches extensions f
    && f.readErr.isNone && !isBlank f.content

/-- A walked file passes the path filters but its per-file `try` block
raises, producing a warning. -/
def fileWarn (rootParts extensions excludeDirs : List String) (f : IngestFile) : Bool :=
  !excludedFile rootParts excludeDirs f && extMatches extensions f && f.readErr.isSome

/-- The hit a matching record contributes to the scan. -/
def hitOf (r : PassageRecord) : SearchHit :=
  ⟨recContent r, r.metadata, 1⟩

/-- A sample raw-passage record. -/
def sampleRecord : PassageRecord := ⟨some "hello world", none, []⟩

/-- A sample index path `./leann_index`. -/
def sampleIndexPath : PPath := ⟨false, ["leann_index"]⟩

/-- Its metadata file `leann_index.meta.json`. -/
def sampleMetaPath : PPath := metaSuffixPath sampleIndexPath

/-- The relative raw-passage log path recorded in the metadata. -/
def samplePassagePath : PPath := ⟨false, ["passages.jsonl"]⟩

/-- A grep environment with a well-formed metadata file whose jsonl
passage source resolves (metadata-dir relative) to a log with the given
lines; `m` is the regex-compilation outcome for the query. -/
def envOfLog (m : Except String (String → Bool)) (lines : List LogLine) : GrepEnv where
  indexPath := sampleIndexPath
  existing := [sampleMetaPath, samplePassagePath]
  metaFiles := [(sampleMetaPath, ⟨false, false, [⟨"jsonl", some samplePassagePath⟩]⟩)]
  logFiles := [(samplePassagePath, lines)]
  regex := m

/-- A grep environment in which no metadata file exists at all. -/
def grepEnvNoMeta : GrepEnv where
  indexPath := ⟨false, ["idx"]⟩
  existing := []
  metaFiles := []
  logFiles := []
  regex := .ok (fun _ => true)

/-- Environment for C1: the library search succeeds under `use_grep`. -/
def envC1 : SearchEnv :=
  ⟨.ok (), false, false, .ok [⟨"library hit", [], 2⟩], grepEnvNoMeta⟩

/-- Environment for C2: a full (non-degraded) index whose library search
raises the missing-log message, with a fallback log that would match. -/
def envC2 : SearchEnv :=
  ⟨.ok (), false, false, .error missingLogPhrase,
    envOfLog (.ok (fun _ => true)) [.ok sampleRecord]⟩

/-- Environment for C3: a pruned index whose library search raises the
missing-log message and whose fallback log is readable but empty. -/
def envC3 : SearchEnv :=
  ⟨.ok (), true, false, .error missingLogPhrase, envOfLog (.ok (fun _ => true)) []⟩

/-- Environment for the amended C3: a pruned index whose library search
raises an unrelated message. -/
def envC3b : SearchEnv :=
  ⟨.ok (), true, false, .error "embedding server crashed", grepEnvNoMeta⟩

/-- Environment for C6/C9: one matching passage behind a readable log. -/
def grepEnvOne : GrepEnv := envOfLog (.ok (fun _ => true)) [.ok sampleRecord]

/-- Ingestion environment for C7: the root exists but is a regular file,
so `rglob('*')` yields nothing. -/
def envFileRoot : IngestEnv :=
  ⟨["tmp", "notes.txt"], true, false, [⟨["x.py"], ".py", "print(1)", none⟩], none⟩

/-- Ingestion environment for C10: the root directory lies below an
ancestor named `build`, which is on the default deny-list. -/
def envUnderBuild : IngestEnv :=
  ⟨["home", "build", "proj"], true, true, [⟨["a.py"], ".py", "x = 1", none⟩], none⟩

/-! ### Helper lemmas -/

/-- The walk loop is the filter/map characterization: the passages are
exactly the kept files in walk order, the warnings exactly the files
whose per-file block raised — so a failing file never stops the walk. -/
theorem processFiles_eq (rootParts extensions excludeDirs : List String)
    (files : List IngestFile) :
    processFiles rootParts extensions excludeDirs files =
      ((files.filter (fileKept rootParts extensions excludeDirs)).map toPassage,
       (files.filter (fileWarn rootParts extensions excludeDirs)).map (warnMsg rootParts)) := by
  induction files with
  | nil => rfl
  | cons f rest ih =>
    simp only [processFiles, ih]
    by_cases hex : excludedFile rootParts excludeDirs f
    · simp [List.filter_cons, fileKept, fileWarn, hex]
    · by_cases hext : extMatches extensions f
      · cases hre : f.readErr with
        | some m =>
          simp [List.filter_cons, fileKept, fileWarn, hex, hext, hre]
        | none =>
          by_cases hemp : isBlank f.content
          · simp [List.filter_cons, fileKept, fileWarn, hex, hext, hre, hemp]
          · simp [List.filter_cons, fileKept, fileWarn, hex, hext, hre, hemp]
      · simp [List.filter_cons, fileKept, fileWarn, hex, hext]

/-- Every file is excluded when an ancestor component of the root is on
the deny-list. -/
theorem excludedFile_of_root (rootParts excludeDirs : List String) (e : String)
    (he : e ∈ excludeDirs) (hr : e ∈ rootParts) (f : IngestFile) :
    excludedFile rootParts excludeDirs f = true := by
  simp only [excludedFile, List.any_eq_true, decide_eq_true_eq]
  exact ⟨e, he, ⟨e, List.mem_append_left _ hr, rfl⟩⟩

/-- Unfolding: a scan step on an unparsable line. -/
theorem grepScan_cons_bad (m : String → Bool) (topK : Int) (acc : List SearchHit)
    (rest : List LogLine) :
    grepScan m topK acc (LogLine.bad :: rest) = grepScan m topK acc rest := rfl

/-- Unfolding: a scan step on a parsed line. -/
theorem grepScan_cons_ok (m : String → Bool) (topK : Int) (acc : List SearchHit)
    (r : PassageRecord) (rest : List LogLine) :
    grepScan m topK acc (LogLine.ok r :: rest) =
      if m (recContent r) then
        if topK ≤ ((acc ++ [hitOf r]).length : Int) then acc ++ [hitOf r]
        else grepScan m topK (acc ++ [hitOf r]) rest
      else grepScan m topK acc rest := rfl

/-- When every log line parses and matches, the scan keeps appending
until the `top_k` break fires: the result length is the budget-capped
total. -/
theorem grepScan_all_match (m : String → Bool) (topK : Int) :
    ∀ (lines : List LogLine) (acc : List SearchHit),
      (∀ l ∈ lines, ∃ r, l = LogLine.ok r ∧ m (recContent r) = true) →
      acc.length < topK.toNat →
      (grepScan m topK acc lines).length = min (acc.length + lines.length) topK.toNat
  | [], acc, _, hlt => by
    simp only [grepScan, List.length_nil, Nat.add_zero]
    omega
  | l :: rest, acc, hall, hlt => by
    obtain ⟨r, rfl, hm⟩ := hall l (List.mem_cons_self l rest)
    rw [grepScan_cons_ok, if_pos hm]
    have hlen : (acc ++ [hitOf r]).length = acc.length + 1 := by
      simp
    by_cases hbrk : topK ≤ ((acc ++ [hitOf r]).length : Int)
    · rw [if_pos hbrk, hlen]
      rw [hlen] at hbrk
      push_cast at hbrk
      simp only [List.length_cons]
      omega
    · rw [if_neg hbrk]
      rw [hlen] at hbrk
      push_cast at hbrk
      have hrec := grepScan_all_match m topK rest (acc ++ [hitOf r])
        (fun l hl => hall l (List.mem_cons_of_mem _ hl))
        (by rw [hlen]; omega)
      rw [hlen] at hrec
      simp only [List.length_cons]
      omega

/-- Every hit the scan produces beyond the accumulator carries the
sentinel score 1. -/
theorem grepScan_score (m : String → Bool) (topK : Int) :
    ∀ (lines : List LogLine) (acc : List SearchHit),
      (∀ h ∈ acc, h.score = 1) →
      ∀ h ∈ grepScan m topK acc lines, h.score = 1
  | [], _, hacc, h, hh => hacc h hh
  | l :: rest, acc, hacc, h, hh => by
    match l with
    | .bad => exact grepScan_score m topK rest acc hacc h hh
    | .ok r =>
      rw [grepScan_cons_ok] at hh
      by_cases hm : m (recContent r)
      · rw [if_pos hm] at hh
        have hacc' : ∀ x ∈ acc ++ [hitOf r], x.score = 1 := by
          intro x hx
          rcases List.mem_append.mp hx with hx | hx
          · exact hacc x hx
          · simp only [List.mem_singleton] at hx
            subst hx; rfl
        by_cases hbrk : topK ≤ ((acc ++ [hitOf r]).length : Int)
        · rw [if_pos hbrk] at hh
          exact hacc' h hh
        · rw [if_neg hbrk] at hh
          exact grepScan_score m topK rest _ hacc' h hh
      · rw [if_neg hm] at hh
        exact grepScan_score m topK rest acc hacc h hh

/-- When no parsed line matches, the scan returns the accumulator. -/
theorem grepScan_none (m : String → Bool) (topK : Int) :
    ∀ (lines : List LogLine) (acc : List SearchHit),
      (∀ r, LogLine.ok r ∈ lines → m (recContent r) = false) →
      grepScan m topK acc lines = acc
  | [], _, _ => rfl
  | l :: rest, acc, hall => by
    match l with
    | .bad =>
      exact grepScan_none m topK rest acc (fun r hr => hall r (List.mem_cons_of_mem _ hr))
    | .ok r =>
      have hm := hall r (List.mem_cons_self _ rest)
      rw [grepScan_cons_ok, if_neg (by simp [hm])]
      exact grepScan_none m topK rest acc (fun r hr => hall r (List.mem_cons_of_mem _ hr))

/-- With a non-positive `top_k`, the break check fires right after the
first appended match: the scan stops with exactly one hit. -/
theorem grepScan_nonpos (m : String → Bool) (topK : Int) (hk : topK ≤ 0) :
    ∀ (lines : List LogLine),
      (∃ r, LogLine.ok r ∈ lines ∧ m (recContent r) = true) →
      (grepScan m topK [] lines).length = 1
  | [], hex => absurd hex.choose_spec.1 (List.not_mem_nil _)
  | l :: rest, hex => by
    match l with
    | .bad =>
      obtain ⟨r, hr, hm⟩ := hex
      rcases List.mem_cons.mp hr with h | h
      · exact absurd h (by simp)
      · exact grepScan_nonpos m topK hk rest ⟨r, h, hm⟩
    | .ok r₀ =>
      by_cases hm0 : m (recContent r₀)
      · have hbrk : topK ≤ ((([] ++ [hitOf r₀]).length : Int)) := by
          simp only [List.nil_append, List.length_singleton]
          omega
        rw [grepScan_cons_ok, if_pos hm0, if_pos hbrk]
        rfl
      · obtain ⟨r, hr, hm⟩ := hex
        rcases List.mem_cons.mp hr with h | h
        · rw [LogLine.ok.injEq] at h
          subst h
          exact absurd hm (by simp [hm0])
        · rw [grepScan_cons_ok, if_neg hm0]
          exact grepScan_nonpos m topK hk rest ⟨r, h, hm⟩

/-- Length of the final packaging step of `_manual_grep`. -/
theorem length_packHits (l : List SearchHit) :
    (if l.isEmpty then ([] : List Entry) else l.map Entry.hit).length = l.length := by
  by_cases h : l.isEmpty
  · rw [if_pos h, List.isEmpty_iff.mp h]
    rfl
  · rw [if_neg h, List.length_map]

/-- On the canonical environment, `_manual_grep` reduces to the scan
loop plus packaging: metadata probing, jsonl-source selection, and path
resolution all succeed concretely. -/
theorem manual_grep_envOfLog (m : String → Bool) (lines : List LogLine) (topK : Int) :
    manual_grep (envOfLog (.ok m) lines) topK =
      if (grepScan m topK [] lines).isEmpty then []
      else (grepScan m topK [] lines).map Entry.hit := rfl

/-! ### Claim theorems -/

/-- C1 (counterexample): with `use_grep=true` and a library search that
succeeds, `search` returns the library's formatted results — it does not
route the request to `_manual_grep` (whose output here is a metadata-not-
found error entry), so the claim that `useGrep=true` always routes
directly to the fallback engine is false. -/
theorem c1_counterexample :
    search envC1 10 true = .ok [Entry.hit ⟨"library hit", [], 2⟩] ∧
    manual_grep envC1.grep 10 =
      [Entry.error "Grep failed: Metadata not found at idx[.meta.json]"] ∧
    ¬ search envC1 10 true = .ok (manual_grep envC1.grep 10) := by
  refine ⟨rfl, rfl, ?_⟩
  intro h
  rw [show search envC1 10 true = .ok [Entry.hit ⟨"library hit", [], 2⟩] from rfl] at h
  rw [show manual_grep envC1.grep 10 =
      [Entry.error "Grep failed: Metadata not found at idx[.meta.json]"] from rfl] at h
  simp at h

/-- C1 (amended): a `use_grep=true` request still goes through the
library searcher (with `use_grep` passed along); when that call returns
results they are formatted and returned, and `_manual_grep` is invoked
exactly when the call raises with a message containing the
missing-passages phrase. -/
theorem c1_amended (env : SearchEnv) (topK : Int) (rs : List RawResult) (e : String)
    (hinit : env.searcherInit = .ok ()) :
    (env.libSearch = .ok rs → search env topK true = .ok (rs.map formatResult)) ∧
    (env.libSearch = .error e → strContains e missingLogPhrase = true →
      search env topK true = .ok (manual_grep env.grep topK)) := by
  constructor
  · intro hs
    simp [search, searchBody, hinit, hs]
  · intro hs hc
    simp [search, searchBody, hinit, hs, hc]

/-- C1 (witness): the amended theorem applied to the concrete
environment of the counterexample. -/
theorem c1_witness :
    (envC1.libSearch = .ok [⟨"library hit", [], 2⟩] →
      search envC1 10 true = .ok ([(⟨"library hit", [], 2⟩ : RawResult)].map formatResult)) ∧
    (envC1.libSearch = .error missingLogPhrase →
      strContains missingLogPhrase missingLogPhrase = true →
      search envC1 10 true = .ok (manual_grep envC1.grep 10)) :=
  c1_amended envC1 10 [⟨"library hit", [], 2⟩] missingLogPhrase rfl

/-- C2 (counterexample): the library search fails with exactly the
missing-log message, but because `use_grep=false` the failure is
reported as an in-band error entry and the fallback engine — which would
have found a hit — is not retried, so escalation is not independent of
the other request parameters. -/
theorem c2_counterexample :
    strContains missingLogPhrase missingLogPhrase = true ∧
    search envC2 10 false = .ok [Entry.error ("Search failed: " ++ missingLogPhrase)] ∧
    manual_grep envC2.grep 10 = [Entry.hit ⟨"hello world", [], 1⟩] ∧
    ¬ [Entry.error ("Search failed: " ++ missingLogPhrase)]
        = [Entry.hit (⟨"hello world", [], 1⟩ : SearchHit)] := by
  refine ⟨rfl, rfl, rfl, ?_⟩
  simp

/-- C2 (amended): when the library search raises, the failure escalates
to one `_manual_grep` retry exactly when `use_grep=true` and the message
contains the missing-log phrase; otherwise it is reported in-band — as
the rebuild-instructing entry when the index is pruned/compact, as a
generic `Search failed` entry otherwise. -/
theorem c2_amended (env : SearchEnv) (topK : Int) (g : Bool) (e : String)
    (hinit : env.searcherInit = .ok ()) (hs : env.libSearch = .error e) :
    search env topK g =
      .ok (if g && strContains e missingLogPhrase then manual_grep env.grep topK
           else if env.is_pruned || env.is_compact then [.error (recomputeMsg e)]
           else [.error ("Search failed: " ++ e)]) := by
  by_cases hc : (g && strContains e missingLogPhrase) = true
  · simp [search, searchBody, hinit, hs, hc]
  · by_cases hr : (env.is_pruned || env.is_compact) = true
    · simp [search, searchBody, hinit, hs, hc, hr]
    · simp [search, searchBody, hinit, hs, hc, hr]

/-- C2 (witness): the amended theorem applied to the concrete
environment of the counterexample. -/
theorem c2_witness :
    search envC2 10 false =
      .ok (if false && strContains missingLogPhrase missingLogPhrase then
            manual_grep envC2.grep 10
           else if envC2.is_pruned || envC2.is_compact then
            [.error (recomputeMsg missingLogPhrase)]
           else [.error ("Search failed: " ++ missingLogPhrase)]) :=
  c2_amended envC2 10 false missingLogPhrase rfl rfl

/-- C3 (counterexample): a pruned index whose underlying search raises
can still produce an empty successful result: with `use_grep=true` and
the missing-log message, the grep fallback takes precedence over the
recompute error and returns the empty sequence for a readable log with
no matches — contradicting "never an empty successful result". -/
theorem c3_counterexample :
    envC3.is_pruned = true ∧
    envC3.libSearch = .error missingLogPhrase ∧
    search envC3 5 true = .ok [] := ⟨rfl, rfl, rfl⟩

/-- C3 (amended): for a pruned or compact index whose underlying search
raises, `search` returns the dedicated rebuild-instructing error entry
in every case except the `use_grep` missing-log escalation, which is
handled by the grep fallback instead. -/
theorem c3_amended (env : SearchEnv) (topK : Int) (g : Bool) (e : String)
    (hinit : env.searcherInit = .ok ())
    (hdeg : (env.is_pruned || env.is_compact) = true)
    (hs : env.libSearch = .error e)
    (hng : (g && strContains e missingLogPhrase) = false) :
    search env topK g = .ok [.error (recomputeMsg e)] := by
  simp [search, searchBody, hinit, hs, hng, hdeg]

/-- C3 (witness): the amended theorem at a pruned index with an
unrelated error message. -/
theorem c3_witness :
    search envC3b 5 false = .ok [.error (recomputeMsg "embedding server crashed")] :=
  c3_amended envC3b 5 false "embedding server crashed" rfl rfl rfl rfl

/-- C4 (confirmed): `search` never lets an exception escape — for every
environment (including one where the inner handler re-raises the search
error) the method returns a list; in the exception embedding its result
is always `Except.ok`. -/
theorem c4_search_total (env : SearchEnv) (topK : Int) (g : Bool) :
    ∃ l, search env topK g = .ok l := by
  unfold search
  cases h : searchBody env topK g with
  | ok l => exact ⟨l, rfl⟩
  | error e =>
    by_cases hc : (g && strContains e missingLogPhrase) = true
    · exact ⟨manual_grep env.grep topK, by simp [hc]⟩
    · exact ⟨[.error ("Search failed: " ++ e)], by simp [hc]⟩

/-- C5 (confirmed): for every existence predicate, metadata directory
and recorded passage path, the resolution of `_manual_grep` equals the
first-existing-candidate search over the spec's candidate order
(metadata-dir-relative, then the path as `Path(passage_path)` constructs
it — absolute when absolute, working-context-relative otherwise, the
same object for both remaining steps). -/
theorem c5_resolution_order (ex : PPath → Bool) (metaDir p : PPath) :
    resolvePassagePath ex metaDir p = resolveSpecOrder ex metaDir p := by
  unfold resolvePassagePath resolveSpecOrder
  by_cases h1 : ex (pjoin metaDir p) = true
  · simp [List.find?, h1]
  · by_cases h2 : ex p = true
    · simp [List.find?, h1, h2]
    · by_cases h3 : p.absolute = true
      · simp [List.find?, h1, h2, h3]
      · simp [List.find?, h1, h2, h3]

/-- C6 (counterexample): with `top_k = 0` and one matching passage in
the log, the fallback returns one result, not `min(len(P), topK) = 0`,
because the truncation check runs only after a match is appended. -/
theorem c6_counterexample :
    manual_grep grepEnvOne 0 = [Entry.hit ⟨"hello world", [], 1⟩] ∧
    ¬ (manual_grep grepEnvOne 0).length = min [sampleRecord].length (Int.toNat 0) := by
  refine ⟨rfl, ?_⟩
  intro h
  rw [show manual_grep grepEnvOne 0 = [Entry.hit ⟨"hello world", [], 1⟩] from rfl] at h
  simp at h

/-- C6 (amended): for `top_k ≥ 1`, writing passages P to the log and
grepping with a pattern matching every passage returns exactly
`min(len(P), topK)` results, each with score 1.0; and when the log is
readable but nothing matches, the result is the empty sequence, not an
error entry. -/
theorem c6_amended (records : List PassageRecord) (m : String → Bool) (topK : Int)
    (hk : 1 ≤ topK) :
    ((∀ r ∈ records, m (recContent r) = true) →
      (manual_grep (envOfLog (.ok m) (records.map LogLine.ok)) topK).length
          = min records.length topK.toNat ∧
      ∀ e ∈ manual_grep (envOfLog (.ok m) (records.map LogLine.ok)) topK,
        ∃ h, e = Entry.hit h ∧ h.score = 1) ∧
    ((∀ r ∈ records, m (recContent r) = false) →
      manual_grep (envOfLog (.ok m) (records.map LogLine.ok)) topK = []) := by
  constructor
  · intro hall
    have hlen := grepScan_all_match m topK (records.map LogLine.ok) []
      (by
        intro l hl
        obtain ⟨r, hr, rfl⟩ := List.mem_map.mp hl
        exact ⟨r, rfl, hall r hr⟩)
      (by simp only [List.length_nil]; omega)
    rw [List.length_map, List.length_nil, Nat.zero_add] at hlen
    constructor
    · rw [manual_grep_envOfLog, length_packHits, hlen]
    · intro e he
      rw [manual_grep_envOfLog] at he
      by_cases hemp : (grepScan m topK [] (records.map LogLine.ok)).isEmpty
      · rw [if_pos hemp] at he
        exact absurd he (List.not_mem_nil e)
      · rw [if_neg hemp] at he
        obtain ⟨h, hh, rfl⟩ := List.mem_map.mp he
        exact ⟨h, rfl, grepScan_score m topK (records.map LogLine.ok) []
          (by intro x hx; exact absurd hx (List.not_mem_nil x)) h hh⟩
  · intro hnone
    have hscan := grepScan_none m topK (records.map LogLine.ok) []
      (by
        intro r hr
        obtain ⟨r', hr', heq⟩ := List.mem_map.mp hr
        rw [LogLine.ok.injEq] at heq
        subst heq
        exact hnone _ hr')
    rw [manual_grep_envOfLog, hscan]
    rfl

/-- C6 (witness): the amended theorem at three matching passages and
`top_k = 2`. -/
theorem c6_witness :
    ((∀ r ∈ [sampleRecord, sampleRecord, sampleRecord], (fun _ => true) (recContent r) = true) →
      (manual_grep (envOfLog (.ok (fun _ => true))
          ([sampleRecord, sampleRecord, sampleRecord].map LogLine.ok)) 2).length
        = min [sampleRecord, sampleRecord, sampleRecord].length (Int.toNat 2) ∧
      ∀ e ∈ manual_grep (envOfLog (.ok (fun _ => true))
          ([sampleRecord, sampleRecord, sampleRecord].map LogLine.ok)) 2,
        ∃ h, e = Entry.hit h ∧ h.score = 1) ∧
    ((∀ r ∈ [sampleRecord, sampleRecord, sampleRecord], (fun _ => true) (recContent r) = false) →
      manual_grep (envOfLog (.ok (fun _ => true))
        ([sampleRecord, sampleRecord, sampleRecord].map LogLine.ok)) 2 = []) :=
  c6_amended [sampleRecord, sampleRecord, sampleRecord] (fun _ => true) 2 (by omega)

/-- C9 (confirmed): with `top_k ≤ 0` and at least one matching passage,
`_manual_grep` returns exactly one result — the truncation check
`len(results) >= top_k` runs only after a match is appended. -/
theorem c9_nonpos_topk (records : List PassageRecord) (m : String → Bool) (topK : Int)
    (hk : topK ≤ 0)
    (hex : ∃ r ∈ records, m (recContent r) = true) :
    (manual_grep (envOfLog (.ok m) (records.map LogLine.ok)) topK).length = 1 := by
  obtain ⟨r, hr, hm⟩ := hex
  rw [manual_grep_envOfLog, length_packHits]
  exact grepScan_nonpos m topK hk (records.map LogLine.ok)
    ⟨r, List.mem_map.mpr ⟨r, hr, rfl⟩, hm⟩

/-- C9 (witness): one matching passage, `top_k = 0`, one result. -/
theorem c9_witness :
    (manual_grep (envOfLog (.ok (fun _ => true)) ([sampleRecord].map LogLine.ok)) 0).length = 1 :=
  c9_nonpos_topk [sampleRecord] (fun _ => true) 0 (by omega)
    ⟨sampleRecord, by simp, rfl⟩

/-- C7 (counterexample): a root that exists but is a regular file does
not produce the `PathNotFound` error — line 84 only checks existence, the
walk yields nothing and the call reports success with zero files. -/
theorem c7_counterexample :
    envFileRoot.rootExists = true ∧
    envFileRoot.rootIsDir = false ∧
    index_codebase envFileRoot none none = .success 0 0 [] [] ∧
    ∀ msg, ¬ index_codebase envFileRoot none none = .error msg := by
  refine ⟨rfl, rfl, rfl, ?_⟩
  intro msg h
  rw [show index_codebase envFileRoot none none = .success 0 0 [] [] from rfl] at h
  exact IndexResult.noConfusion h

/-- C7 (amended): `index_codebase` fails with the `PathNotFound` error
exactly when the root does not exist (an existing non-directory root is
not rejected — its walk is just empty); when the root exists, every
walked file that passes the path filters but fails its per-file read is
collected as a warning while every other eligible file is still indexed,
and only a build failure aborts with its own error. -/
theorem c7_amended (env : IngestEnv) (extensions excludeDirs : Option (List String)) :
    index_codebase env extensions excludeDirs =
      if !env.rootExists then
        .error ("Path does not exist: " ++ String.intercalate "/" env.rootParts)
      else
        match env.buildErr with
        | some m => .error ("Failed to build index: " ++ m)
        | none =>
          .success
            (((walkedFiles env).filter (fileKept env.rootParts
              (extensions.getD defaultExtensions) (excludeDirs.getD defaultExcludeDirs))).length)
            (((walkedFiles env).filter (fileKept env.rootParts
              (extensions.getD defaultExtensions) (excludeDirs.getD defaultExcludeDirs))).length)
            (((walkedFiles env).filter (fileWarn env.rootParts
              (extensions.getD defaultExtensions) (excludeDirs.getD defaultExcludeDirs))).map
              (warnMsg env.rootParts))
            (((walkedFiles env).filter (fileKept env.rootParts
              (extensions.getD defaultExtensions) (excludeDirs.getD defaultExcludeDirs))).map
              toPassage) := by
  cases hroot : env.rootExists with
  | false => simp [index_codebase, hroot]
  | true =>
    cases hbuild : env.buildErr with
    | some m => simp [index_codebase, hroot, hbuild, processFiles_eq]
    | none => simp [index_codebase, hroot, hbuild, processFiles_eq]

/-- C8 (confirmed): every passage the walk loop hands to the builder
comes from a file with no excluded path component (the root's own
components included), with an allow-listed extension, and with content
that is not empty or whitespace-only. -/
theorem c8_filters (rootParts exts excs : List String) (files : List IngestFile)
    (p : Passage) (hp : p ∈ (processFiles rootParts exts excs files).1) :
    (∀ e ∈ excs, e ∉ rootParts ++ p.relParts) ∧ p.suffix ∈ exts ∧ isBlank p.content = false := by
  rw [processFiles_eq] at hp
  obtain ⟨f, hf, rfl⟩ := List.mem_map.mp hp
  have hkept := List.of_mem_filter hf
  simp only [fileKept, Bool.and_eq_true, Bool.not_eq_true'] at hkept
  obtain ⟨⟨⟨hex, hext⟩, -⟩, hemp⟩ := hkept
  refine ⟨?_, ?_, hemp⟩
  · intro e he hmem
    have ht : excludedFile rootParts excs f = true := by
      simp only [excludedFile, List.any_eq_true, decide_eq_true_eq]
      exact ⟨e, he, ⟨e, hmem, rfl⟩⟩
    rw [hex] at ht
    exact Bool.noConfusion ht
  · simp only [extMatches, List.any_eq_true, decide_eq_true_eq] at hext
    obtain ⟨x, hx, heq⟩ := hext
    show f.suffix ∈ exts
    rw [← heq]
    exact hx

/-- C8 (witness): a single eligible file under an unexcluded root. -/
theorem c8_witness :
    (⟨["a.py"], ".py", "hello"⟩ : Passage) ∈
      (processFiles ["proj"] [".py"] ["build"] [⟨["a.py"], ".py", "hello", none⟩]).1 ∧
    ((∀ e ∈ ["build"], e ∉ ["proj"] ++ (⟨["a.py"], ".py", "hello"⟩ : Passage).relParts) ∧
      (⟨["a.py"], ".py", "hello"⟩ : Passage).suffix ∈ [".py"] ∧
      isBlank (⟨["a.py"], ".py", "hello"⟩ : Passage).content = false) :=
  ⟨by decide, c8_filters ["proj"] [".py"] ["build"] [⟨["a.py"], ".py", "hello", none⟩]
    ⟨["a.py"], ".py", "hello"⟩ (by decide)⟩

/-- C10 (confirmed): the exclusion test runs over the file's full path
components, which start with the root path as given; when any ancestor
component of the root is on the deny-list, every file is skipped and a
successful ingestion indexes nothing. -/
theorem c10_root_ancestor_excluded (env : IngestEnv) (exts excs : List String) (e : String)
    (he : e ∈ excs) (hr : e ∈ env.rootParts)
    (hroot : env.rootExists = true) (hbuild : env.buildErr = none) :
    index_codebase env (some exts) (some excs) = .success 0 0 [] [] := by
  have hkept : ∀ f ∈ walkedFiles env, ¬ fileKept env.rootParts exts excs f = true := by
    intro f _ hk
    simp only [fileKept, Bool.and_eq_true, Bool.not_eq_true'] at hk
    rw [excludedFile_of_root env.rootParts excs e he hr f] at hk
    exact Bool.noConfusion hk.1.1.1
  have hwarn : ∀ f ∈ walkedFiles env, ¬ fileWarn env.rootParts exts excs f = true := by
    intro f _ hk
    simp only [fileWarn, Bool.and_eq_true, Bool.not_eq_true'] at hk
    rw [excludedFile_of_root env.rootParts excs e he hr f] at hk
    exact Bool.noConfusion hk.1.1
  rw [c7_amended]
  simp [hroot, hbuild, List.filter_eq_nil_iff.mpr hkept, List.filter_eq_nil_iff.mpr hwarn]

/-- C10 (witness): a root under an ancestor directory named `build`. -/
theorem c10_witness :
    index_codebase envUnderBuild (some [".py"]) (some ["build"]) = .success 0 0 [] [] :=
  c10_root_ancestor_excluded envUnderBuild [".py"] ["build"] "build"
    (by decide) (by decide) rfl rfl

end LeannBridge
